import Mathlib

/-!
Verification of `book_figures/chapter4/fig_lyndenbell_toy.py`.

The script samples `N` points from two truncated normal distributions,
computes per-point truncation limits `xmax`, `ymax` with the symmetric
rule `max_func`, filters the sample to the observable region, and passes
the result to the Lynden-Bell C-minus estimator `bootstrap_Cminus`
on a 21-point fit grid per axis.

Arrays are embedded as `List ℚ`; elementwise numpy operations become
`List.map` / `List.zipWith`, and boolean-mask indexing `a[flag]` becomes
`maskFilter`.
-/

namespace LyndenBellToy

/-- `max_func = lambda t: 1. / (0.5 + t) - 0.5` (line 51 of the script). -/
def max_func (t : ℚ) : ℚ := 1 / (1/2 + t) - 1/2

/-- The elementwise assignment `a[a > 1] = 1` applied to one entry:
the entry is replaced by 1 when it exceeds 1 and kept otherwise. -/
def clipCutoff (a : ℚ) : ℚ := if a > 1 then 1 else a

/-- `xmax = max_func(y); xmax[xmax > 1] = 1` — the x-truncation limits
computed from the full y sample, before filtering. -/
def xmaxArr (y : List ℚ) : List ℚ := (y.map max_func).map clipCutoff

/-- `ymax = max_func(x); ymax[ymax > 1] = 1` — the y-truncation limits
computed from the full x sample, before filtering. -/
def ymaxArr (x : List ℚ) : List ℚ := (x.map max_func).map clipCutoff

/-- numpy boolean-mask indexing `a[flag]`: keep the entries of `vs`
at the positions where `bs` holds. -/
def maskFilter {α : Type} : List Bool → List α → List α
  | b :: bs, v :: vs => if b then v :: maskFilter bs vs else maskFilter bs vs
  | _, _ => []

/-- Zip four parallel arrays into one list of quadruples. -/
def zip4 {α β γ δ : Type} (as : List α) (bs : List β) (cs : List γ) (ds : List δ) :
    List (α × β × γ × δ) :=
  as.zip (bs.zip (cs.zip ds))

/-- The elementwise predicate of `flag = (x < xmax) & (y < ymax)`,
on one quadruple `(x, y, xmax, ymax)`. -/
def flagFn (q : ℚ × ℚ × ℚ × ℚ) : Bool :=
  decide (q.1 < q.2.2.1) && decide (q.2.1 < q.2.2.2)

/-- `flag = (x < xmax) & (y < ymax)` as a boolean array over the four
parallel arrays. -/
def flagArr (x y xmax ymax : List ℚ) : List Bool :=
  (zip4 x y xmax ymax).map flagFn

/-- The flag array the script computes from the raw samples `xs`, `ys`. -/
def flags (xs ys : List ℚ) : List Bool :=
  flagArr xs ys (xmaxArr ys) (ymaxArr xs)

/-- `x = x[flag]` — the x coordinates retained after truncation. -/
def xFiltered (xs ys : List ℚ) : List ℚ := maskFilter (flags xs ys) xs

/-- `y = y[flag]` — the y coordinates retained after truncation. -/
def yFiltered (xs ys : List ℚ) : List ℚ := maskFilter (flags xs ys) ys

/-- `xmax = xmax[flag]` — the x-truncation limits retained after truncation. -/
def xmaxFiltered (xs ys : List ℚ) : List ℚ := maskFilter (flags xs ys) (xmaxArr ys)

/-- `ymax = ymax[flag]` — the y-truncation limits retained after truncation. -/
def ymaxFiltered (xs ys : List ℚ) : List ℚ := maskFilter (flags xs ys) (ymaxArr xs)

/-- `np.linspace(a, b, n)`: `n` evenly spaced values from `a` to `b`. -/
def linspace (a b : ℚ) (n : ℕ) : List ℚ :=
  (List.range n).map (fun k => a + (b - a) * k / (n - 1))

/-- `N = 10000` (line 38 of the script). -/
def N : ℕ := 10000

/-- `x_fit = np.linspace(0, 1, 21)`. -/
def x_fit : List ℚ := linspace 0 1 21

/-- `y_fit = np.linspace(0, 1, 21)`. -/
def y_fit : List ℚ := linspace 0 1 21

/-- The keyword argument `Nbootstraps=20` of the `bootstrap_Cminus` call. -/
def Nbootstraps : ℕ := 20

/-- Bin midpoints `0.5 * (edges[1:] + edges[:-1])`. -/
def midpoints (es : List ℚ) : List ℚ :=
  List.zipWith (fun a b => 1/2 * (a + b)) (es.drop 1) es.dropLast

/-- `x_mid = 0.5 * (x_fit[1:] + x_fit[:-1])`. -/
def x_mid : List ℚ := midpoints x_fit

/-- `y_mid = 0.5 * (y_fit[1:] + y_fit[:-1])`. -/
def y_mid : List ℚ := midpoints y_fit

/-- C1: the truncation-limit arrays computed before filtering equal the
clipped rule `min (max_func t) 1` mapped over the opposite coordinate. -/
theorem xmaxArr_eq_clipped_rule (xs ys : List ℚ) :
    xmaxArr ys = ys.map (fun t => min (1 / (1/2 + t) - 1/2) 1) ∧
    ymaxArr xs = xs.map (fun t => min (1 / (1/2 + t) - 1/2) 1) := by
  constructor <;>
  · simp only [xmaxArr, ymaxArr, List.map_map]
    refine List.map_congr_left (fun t _ => ?_)
    simp only [Function.comp_apply, clipCutoff, max_func]
    rcases lt_or_le 1 (1 / (1/2 + t) - 1/2) with h | h
    · rw [if_pos h]
      exact (min_eq_right h.le).symm
    · rw [if_neg (not_lt.mpr h)]
      exact (min_eq_left h).symm

/-- Masking a projected array by flags computed from the same underlying
list is filtering that list and projecting afterwards. -/
theorem maskFilter_map {α β : Type} (l : List α) (g : α → Bool) (f : α → β) :
    maskFilter (l.map g) (l.map f) = (l.filter g).map f := by
  induction l with
  | nil => rfl
  | cons a l ih =>
    simp only [List.map_cons, maskFilter, List.filter_cons]
    by_cases h : g a
    · simp [h, ih]
    · simp [h, ih]

/-- Every element kept by a boolean mask is an element of the original array. -/
theorem mem_of_mem_maskFilter {α : Type} (bs : List Bool) (vs : List α) :
    ∀ v ∈ maskFilter bs vs, v ∈ vs := by
  induction bs generalizing vs with
  | nil => intro v hv; simp [maskFilter] at hv
  | cons b bs ih =>
    intro v hv
    cases vs with
    | nil => simp [maskFilter] at hv
    | cons w vs =>
      simp only [maskFilter] at hv
      by_cases hb : b
      · rw [if_pos hb] at hv
        rcases List.mem_cons.mp hv with h | h
        · exact h ▸ List.mem_cons_self w vs
        · exact List.mem_cons_of_mem w (ih vs v h)
      · rw [if_neg hb] at hv
        exact List.mem_cons_of_mem w (ih vs v hv)

/-- Projecting the four-way zip of equal-length arrays recovers each array. -/
theorem zip4_proj {α β γ δ : Type} (as : List α) (bs : List β) (cs : List γ) (ds : List δ)
    (h1 : bs.length = as.length) (h2 : cs.length = as.length) (h3 : ds.length = as.length) :
    (zip4 as bs cs ds).map (fun q => q.1) = as ∧
    (zip4 as bs cs ds).map (fun q => q.2.1) = bs ∧
    (zip4 as bs cs ds).map (fun q => q.2.2.1) = cs ∧
    (zip4 as bs cs ds).map (fun q => q.2.2.2) = ds := by
  induction as generalizing bs cs ds with
  | nil =>
    rw [List.length_nil, List.length_eq_zero] at h1 h2 h3
    subst h1; subst h2; subst h3
    simp [zip4]
  | cons a as ih =>
    cases bs with
    | nil => simp at h1
    | cons b bs =>
      cases cs with
      | nil => simp at h2
      | cons c cs =>
        cases ds with
        | nil => simp at h3
        | cons d ds =>
          simp only [List.length_cons, Nat.succ_inj] at h1 h2 h3
          have := ih bs cs ds h1 h2 h3
          simp only [zip4, List.zip_cons_cons, List.map_cons] at this ⊢
          simp [this.1, this.2.1, this.2.2.1, this.2.2.2]

/-- Four-way zip of four projections of one list reassembles that list's
elements pointwise. -/
theorem zip4_map {α α1 α2 α3 α4 : Type} (m : List α)
    (f1 : α → α1) (f2 : α → α2) (f3 : α → α3) (f4 : α → α4) :
    zip4 (m.map f1) (m.map f2) (m.map f3) (m.map f4) =
      m.map (fun q => (f1 q, f2 q, f3 q, f4 q)) := by
  induction m with
  | nil => rfl
  | cons a m ih => simp only [zip4, List.map_cons, List.zip_cons_cons] at ih ⊢; rw [ih]

/-- The four filtered arrays of the script are the projections of the
filtered four-way zip of the pre-truncation arrays. -/
theorem filtered_eq_proj (xs ys : List ℚ) (h : ys.length = xs.length) :
    xFiltered xs ys =
      ((zip4 xs ys (xmaxArr ys) (ymaxArr xs)).filter flagFn).map (fun q => q.1) ∧
    yFiltered xs ys =
      ((zip4 xs ys (xmaxArr ys) (ymaxArr xs)).filter flagFn).map (fun q => q.2.1) ∧
    xmaxFiltered xs ys =
      ((zip4 xs ys (xmaxArr ys) (ymaxArr xs)).filter flagFn).map (fun q => q.2.2.1) ∧
    ymaxFiltered xs ys =
      ((zip4 xs ys (xmaxArr ys) (ymaxArr xs)).filter flagFn).map (fun q => q.2.2.2) := by
  have hxm : (xmaxArr ys).length = xs.length := by
    simp [xmaxArr, h]
  have hym : (ymaxArr xs).length = xs.length := by
    simp [ymaxArr]
  obtain ⟨p1, p2, p3, p4⟩ := zip4_proj xs ys (xmaxArr ys) (ymaxArr xs) h hxm hym
  refine ⟨?_, ?_, ?_, ?_⟩
  · have t := maskFilter_map (zip4 xs ys (xmaxArr ys) (ymaxArr xs)) flagFn (fun q => q.1)
    rw [p1] at t
    rw [xFiltered, flags, flagArr]
    exact t
  · have t := maskFilter_map (zip4 xs ys (xmaxArr ys) (ymaxArr xs)) flagFn (fun q => q.2.1)
    rw [p2] at t
    rw [yFiltered, flags, flagArr]
    exact t
  · have t := maskFilter_map (zip4 xs ys (xmaxArr ys) (ymaxArr xs)) flagFn (fun q => q.2.2.1)
    rw [p3] at t
    rw [xmaxFiltered, flags, flagArr]
    exact t
  · have t := maskFilter_map (zip4 xs ys (xmaxArr ys) (ymaxArr xs)) flagFn (fun q => q.2.2.2)
    rw [p4] at t
    rw [ymaxFiltered, flags, flagArr]
    exact t

/-- Zipped back together, the four filtered arrays are exactly the
filtered four-way zip of the pre-truncation arrays. -/
theorem zip4_filtered (xs ys : List ℚ) (h : ys.length = xs.length) :
    zip4 (xFiltered xs ys) (yFiltered xs ys) (xmaxFiltered xs ys) (ymaxFiltered xs ys) =
      (zip4 xs ys (xmaxArr ys) (ymaxArr xs)).filter flagFn := by
  obtain ⟨p1, p2, p3, p4⟩ := filtered_eq_proj xs ys h
  rw [p1, p2, p3, p4, zip4_map]
  exact List.map_id _

/-- The clipping step `a[a > 1] = 1` bounds every entry by 1. -/
theorem clipCutoff_le_one (a : ℚ) : clipCutoff a ≤ 1 := by
  rw [clipCutoff]
  by_cases h : a > 1
  · rw [if_pos h]
  · rw [if_neg h]
    exact not_lt.mp h

/-- A quadruple in a four-way zip projects into each of the four arrays. -/
theorem mem_zip4 {α β γ δ : Type} {as : List α} {bs : List β} {cs : List γ} {ds : List δ}
    {q : α × β × γ × δ} (hq : q ∈ zip4 as bs cs ds) :
    q.1 ∈ as ∧ q.2.1 ∈ bs ∧ q.2.2.1 ∈ cs ∧ q.2.2.2 ∈ ds := by
  obtain ⟨h1, h2⟩ := List.of_mem_zip hq
  obtain ⟨h21, h22⟩ := List.of_mem_zip h2
  obtain ⟨h31, h32⟩ := List.of_mem_zip h22
  exact ⟨h1, h21, h31, h32⟩

/-- C2: after the filtering step, every retained observation satisfies the
strict inequalities `x < xmax` and `y < ymax`, and the retained quadruples
are exactly the sampled quadruples for which both inequalities held. -/
theorem retained_satisfies_truncation (xs ys : List ℚ) (h : ys.length = xs.length) :
    (∀ q ∈ zip4 (xFiltered xs ys) (yFiltered xs ys) (xmaxFiltered xs ys) (ymaxFiltered xs ys),
        q.1 < q.2.2.1 ∧ q.2.1 < q.2.2.2) ∧
    (∀ q : ℚ × ℚ × ℚ × ℚ,
        q ∈ zip4 (xFiltered xs ys) (yFiltered xs ys) (xmaxFiltered xs ys) (ymaxFiltered xs ys) ↔
          q ∈ zip4 xs ys (xmaxArr ys) (ymaxArr xs) ∧ q.1 < q.2.2.1 ∧ q.2.1 < q.2.2.2) := by
  have key : ∀ q : ℚ × ℚ × ℚ × ℚ,
      q ∈ (zip4 xs ys (xmaxArr ys) (ymaxArr xs)).filter flagFn ↔
        q ∈ zip4 xs ys (xmaxArr ys) (ymaxArr xs) ∧ q.1 < q.2.2.1 ∧ q.2.1 < q.2.2.2 := by
    intro q
    rw [List.mem_filter, flagFn]
    simp only [Bool.and_eq_true, decide_eq_true_eq]
  rw [zip4_filtered xs ys h]
  exact ⟨fun q hq => ((key q).mp hq).2, key⟩

/-- Witness for C2 at the concrete sample `x = [1/4, 3/4]`, `y = [1/4, 3/4]`:
the quadruple `(1/4, 1/4, 5/6, 5/6)` is retained, and its membership matches
the filtering characterisation. -/
theorem retained_satisfies_truncation_witness :
    ((1:ℚ)/4, (1:ℚ)/4, (5:ℚ)/6, (5:ℚ)/6) ∈
        zip4 (xFiltered [1/4, 3/4] [1/4, 3/4]) (yFiltered [1/4, 3/4] [1/4, 3/4])
          (xmaxFiltered [1/4, 3/4] [1/4, 3/4]) (ymaxFiltered [1/4, 3/4] [1/4, 3/4]) ↔
      ((1:ℚ)/4, (1:ℚ)/4, (5:ℚ)/6, (5:ℚ)/6) ∈
          zip4 [1/4, 3/4] [1/4, 3/4] (xmaxArr [1/4, 3/4]) (ymaxArr [1/4, 3/4]) ∧
        (1:ℚ)/4 < (5:ℚ)/6 ∧ (1:ℚ)/4 < (5:ℚ)/6 :=
  (retained_satisfies_truncation [1/4, 3/4] [1/4, 3/4] (by decide)).2 _

/-- C5: the four arrays passed to `bootstrap_Cminus` have equal lengths
(one boolean mask filters all four), and each fit grid has at least 2 edges. -/
theorem estimator_input_shapes (xs ys : List ℚ) (h : ys.length = xs.length) :
    (xFiltered xs ys).length = (yFiltered xs ys).length ∧
    (yFiltered xs ys).length = (xmaxFiltered xs ys).length ∧
    (xmaxFiltered xs ys).length = (ymaxFiltered xs ys).length ∧
    2 ≤ x_fit.length ∧ 2 ≤ y_fit.length := by
  obtain ⟨p1, p2, p3, p4⟩ := filtered_eq_proj xs ys h
  refine ⟨?_, ?_, ?_, by decide, by decide⟩
  · rw [p1, p2, List.length_map, List.length_map]
  · rw [p2, p3, List.length_map, List.length_map]
  · rw [p3, p4, List.length_map, List.length_map]

/-- Witness for C5 at the concrete sample `x = [1/4, 3/4]`, `y = [1/4, 3/4]`. -/
theorem estimator_input_shapes_witness :
    (xFiltered [1/4, 3/4] [1/4, 3/4]).length = (yFiltered [1/4, 3/4] [1/4, 3/4]).length ∧
    (yFiltered [1/4, 3/4] [1/4, 3/4]).length = (xmaxFiltered [1/4, 3/4] [1/4, 3/4]).length ∧
    (xmaxFiltered [1/4, 3/4] [1/4, 3/4]).length = (ymaxFiltered [1/4, 3/4] [1/4, 3/4]).length ∧
    2 ≤ x_fit.length ∧ 2 ≤ y_fit.length :=
  estimator_input_shapes [1/4, 3/4] [1/4, 3/4] (by decide)

/-- C9: when the raw samples are non-negative (as draws from the script's
truncated normals are), every retained coordinate lies in `[0, 1)`. -/
theorem retained_in_unit_square (xs ys : List ℚ) (h : ys.length = xs.length)
    (hx : ∀ v ∈ xs, 0 ≤ v) (hy : ∀ v ∈ ys, 0 ≤ v) :
    (∀ v ∈ xFiltered xs ys, 0 ≤ v ∧ v < 1) ∧
    (∀ v ∈ yFiltered xs ys, 0 ≤ v ∧ v < 1) := by
  obtain ⟨p1, p2, p3, p4⟩ := filtered_eq_proj xs ys h
  constructor
  · intro v hv
    rw [p1] at hv
    obtain ⟨q, hq, rfl⟩ := List.mem_map.mp hv
    have hmem := List.mem_of_mem_filter hq
    have hflag := List.of_mem_filter hq
    rw [flagFn, Bool.and_eq_true, decide_eq_true_eq, decide_eq_true_eq] at hflag
    have hx0 : 0 ≤ q.1 := hx _ (mem_zip4 hmem).1
    have hxmax : q.2.2.1 ∈ xmaxArr ys := (mem_zip4 hmem).2.2.1
    rw [xmaxArr] at hxmax
    obtain ⟨a, _, ha⟩ := List.mem_map.mp hxmax
    rw [← ha] at hflag
    exact ⟨hx0, lt_of_lt_of_le hflag.1 (clipCutoff_le_one a)⟩
  · intro v hv
    rw [p2] at hv
    obtain ⟨q, hq, rfl⟩ := List.mem_map.mp hv
    have hmem := List.mem_of_mem_filter hq
    have hflag := List.of_mem_filter hq
    rw [flagFn, Bool.and_eq_true, decide_eq_true_eq, decide_eq_true_eq] at hflag
    have hy0 : 0 ≤ q.2.1 := hy _ (mem_zip4 hmem).2.1
    have hymax : q.2.2.2 ∈ ymaxArr xs := (mem_zip4 hmem).2.2.2
    rw [ymaxArr] at hymax
    obtain ⟨a, _, ha⟩ := List.mem_map.mp hymax
    rw [← ha] at hflag
    exact ⟨hy0, lt_of_lt_of_le hflag.2 (clipCutoff_le_one a)⟩

/-- Witness for C9: the retained coordinate `1/4` of the concrete sample
`x = [1/4, 3/4]`, `y = [1/4, 3/4]` lies in `[0, 1)`. -/
theorem retained_in_unit_square_witness : 0 ≤ (1:ℚ)/4 ∧ (1:ℚ)/4 < 1 := by
  have hval : xFiltered [1/4, 3/4] [1/4, 3/4] = [1/4] := by
    norm_num [xFiltered, flags, flagArr, zip4, xmaxArr, ymaxArr, max_func, clipCutoff,
      maskFilter, flagFn]
  have hmem : (1:ℚ)/4 ∈ xFiltered [1/4, 3/4] [1/4, 3/4] := by
    rw [hval]
    exact List.mem_cons_self _ _
  exact (retained_in_unit_square [1/4, 3/4] [1/4, 3/4] rfl
      (by intro v hv; fin_cases hv <;> norm_num)
      (by intro v hv; fin_cases hv <;> norm_num)).1 (1/4) hmem

/-- The fit grid evaluates to the 21 rationals `k/20`, `k = 0, …, 20`. -/
theorem x_fit_eq : x_fit = [0, 1/20, 2/20, 3/20, 4/20, 5/20, 6/20, 7/20, 8/20, 9/20, 10/20,
    11/20, 12/20, 13/20, 14/20, 15/20, 16/20, 17/20, 18/20, 19/20, 1] := by
  have hr : List.range 21 = [0, 1, 2, 3, 4, 5, 6, 7, 8, 9, 10,
      11, 12, 13, 14, 15, 16, 17, 18, 19, 20] := by decide
  rw [x_fit, linspace, hr]
  norm_num

/-- C6: the fit grids are 21-edge sequences from 0 to 1 that are strictly
increasing edge to edge, with even spacing 1/20. -/
theorem fit_grid_monotone :
    x_fit.length = 21 ∧ y_fit = x_fit ∧ List.Chain' (· < ·) x_fit ∧
    x_fit.getD 0 0 = 0 ∧ x_fit.getD 20 0 = 1 ∧
    List.Forall₂ (fun a b => b - a = (1:ℚ)/20) x_fit.dropLast (x_fit.drop 1) := by
  refine ⟨?_, rfl, ?_, ?_, ?_, ?_⟩
  · rw [x_fit_eq]; rfl
  · rw [x_fit_eq]; norm_num [List.chain'_cons]
  · rw [x_fit_eq]; rfl
  · rw [x_fit_eq]; rfl
  · rw [x_fit_eq]; norm_num [List.forall₂_cons]

/-- The bin midpoints evaluate to the 20 rationals `(2k+1)/40`. -/
theorem x_mid_eq : x_mid = [1/40, 3/40, 5/40, 7/40, 9/40, 11/40, 13/40, 15/40, 17/40, 19/40,
    21/40, 23/40, 25/40, 27/40, 29/40, 31/40, 33/40, 35/40, 37/40, 39/40] := by
  rw [x_mid, midpoints, x_fit_eq]
  norm_num

/-- C7: the midpoint grids are derived from the edges: each midpoint is the
mean of its two adjacent edges, lies strictly between them, and there is one
midpoint fewer than there are edges. -/
theorem mid_grid_between_edges :
    x_mid.length + 1 = x_fit.length ∧ y_mid = x_mid ∧
    List.Forall₂ (fun m p => m = 1/2 * (p.1 + p.2) ∧ p.1 < m ∧ m < p.2)
      x_mid (x_fit.dropLast.zip (x_fit.drop 1)) := by
  refine ⟨?_, rfl, ?_⟩
  · rw [x_mid_eq, x_fit_eq]; rfl
  · rw [x_mid_eq, x_fit_eq]
    norm_num [List.forall₂_cons]

/-- Counterexample to C4 as stated: the script sets `N = 10000`, not 1000. -/
theorem demo_constants_cex : ¬ (N = 1000 ∧ x_fit.length = 21 ∧ Nbootstraps = 20) := by
  intro h
  have h1 := h.1
  norm_num [N] at h1

/-- C4 (amended): the demo draws `N = 10000` points, evaluates on a 21-point
fit grid spanning `[0, 1]` on each axis, and uses 20 bootstrap replicates. -/
theorem demo_constants :
    N = 10000 ∧ x_fit.length = 21 ∧ x_fit.getD 0 0 = 0 ∧ x_fit.getD 20 0 = 1 ∧
    y_fit = x_fit ∧ Nbootstraps = 20 := by
  refine ⟨rfl, ?_, ?_, ?_, rfl, rfl⟩
  · rw [x_fit_eq]; rfl
  · rw [x_fit_eq]; rfl
  · rw [x_fit_eq]; rfl

/-- Lower end of the support of `x_pdf = stats.truncnorm(-2, 1, 0.66666, 0.33333)`;
scipy's `truncnorm(a, b, loc, scale)` is supported on `[loc + a*scale, loc + b*scale]`. -/
def x_pdf_lo : ℚ := 66666/100000 + (-2) * (33333/100000)

/-- Upper end of the support of `x_pdf = stats.truncnorm(-2, 1, 0.66666, 0.33333)`. -/
def x_pdf_hi : ℚ := 66666/100000 + 1 * (33333/100000)

/-- Lower end of the support of `y_pdf = stats.truncnorm(-1, 2, 0.33333, 0.33333)`. -/
def y_pdf_lo : ℚ := 33333/100000 + (-1) * (33333/100000)

/-- Upper end of the support of `y_pdf = stats.truncnorm(-1, 2, 0.33333, 0.33333)`. -/
def y_pdf_hi : ℚ := 33333/100000 + 2 * (33333/100000)

/-- Membership in the support of the x sampling distribution. -/
def x_pdf_support (t : ℚ) : Prop := x_pdf_lo ≤ t ∧ t ≤ x_pdf_hi

/-- Membership in the support of the y sampling distribution. -/
def y_pdf_support (t : ℚ) : Prop := y_pdf_lo ≤ t ∧ t ≤ y_pdf_hi

/-- C8: every value in the support of either sampling distribution lies in
`[0, 1]`, makes the denominator `0.5 + t` of `max_func` strictly positive,
and the division in `max_func` is a genuine inverse there. -/
theorem max_func_denominator_safe (t : ℚ) (h : x_pdf_support t ∨ y_pdf_support t) :
    0 ≤ t ∧ t ≤ 1 ∧ 0 < 1/2 + t ∧ (1/2 + t) * (max_func t + 1/2) = 1 := by
  have h0 : 0 ≤ t ∧ t ≤ 1 := by
    rcases h with ⟨h1, h2⟩ | ⟨h1, h2⟩
    · rw [x_pdf_lo] at h1
      rw [x_pdf_hi] at h2
      constructor <;> linarith
    · rw [y_pdf_lo] at h1
      rw [y_pdf_hi] at h2
      constructor <;> linarith
  have hpos : 0 < 1/2 + t := by linarith [h0.1]
  have hne : (1/2 + t) ≠ 0 := ne_of_gt hpos
  refine ⟨h0.1, h0.2, hpos, ?_⟩
  rw [max_func]
  have hh : 1 / (1/2 + t) - 1/2 + 1/2 = 1/(1/2 + t) := by ring
  rw [hh, mul_one_div_cancel hne]

/-- Witness for C8 at `t = 1/2`, which lies in the support of `x_pdf`. -/
theorem max_func_denominator_safe_witness :
    x_pdf_support (1/2) ∧
    (0 ≤ (1:ℚ)/2 ∧ (1:ℚ)/2 ≤ 1 ∧ 0 < 1/2 + (1:ℚ)/2 ∧
      (1/2 + (1:ℚ)/2) * (max_func (1/2) + 1/2) = 1) := by
  have hs : x_pdf_support (1/2) := by
    rw [x_pdf_support, x_pdf_lo, x_pdf_hi]
    norm_num
  exact ⟨hs, max_func_denominator_safe (1/2) (Or.inl hs)⟩

/-- When the clipped limit is below the cap, clipping did nothing. -/
theorem clipCutoff_eq_of_lt_one {a : ℚ} (h : clipCutoff a < 1) : clipCutoff a = a := by
  rw [clipCutoff] at h ⊢
  by_cases h1 : a > 1
  · rw [if_pos h1] at h
    exact absurd h (lt_irrefl 1)
  · rw [if_neg h1]

/-- Clipping at 1 is a monotone operation. -/
theorem clipCutoff_mono {a b : ℚ} (h : a ≤ b) : clipCutoff a ≤ clipCutoff b := by
  rw [clipCutoff, clipCutoff]
  by_cases ha : a > 1
  · rw [if_pos ha, if_pos (lt_of_lt_of_le ha h)]
  · rw [if_neg ha]
    by_cases hb : b > 1
    · rw [if_pos hb]
      exact not_lt.mp ha
    · rw [if_neg hb]
      exact h

/-- C10: on `t ≥ 0` the clipped truncation limit `clipCutoff (max_func t)`
is monotone non-increasing, and strictly decreasing between distinct points
whose limits are both below the cap of 1. -/
theorem truncation_limit_antitone (t1 t2 : ℚ) (h0 : 0 ≤ t1) (h12 : t1 ≤ t2) :
    clipCutoff (max_func t2) ≤ clipCutoff (max_func t1) ∧
    (t1 < t2 → clipCutoff (max_func t1) < 1 → clipCutoff (max_func t2) < 1 →
      clipCutoff (max_func t2) < clipCutoff (max_func t1)) := by
  have hp1 : 0 < 1/2 + t1 := by linarith
  have hp2 : 0 < 1/2 + t2 := by linarith
  constructor
  · have hle : max_func t2 ≤ max_func t1 := by
      rw [max_func, max_func]
      have := one_div_le_one_div_of_le hp1 (by linarith : 1/2 + t1 ≤ 1/2 + t2)
      linarith
    exact clipCutoff_mono hle
  · intro hlt hc1 hc2
    rw [clipCutoff_eq_of_lt_one hc1, clipCutoff_eq_of_lt_one hc2]
    rw [max_func, max_func]
    have := one_div_lt_one_div_of_lt hp1 (by linarith : 1/2 + t1 < 1/2 + t2)
    linarith

/-- Witness for C10 at `t1 = 1/4`, `t2 = 1/2`, where both limits are below
the cap. -/
theorem truncation_limit_antitone_witness :
    clipCutoff (max_func (1/2)) ≤ clipCutoff (max_func (1/4)) ∧
    clipCutoff (max_func (1/2)) < clipCutoff (max_func (1/4)) := by
  have H := truncation_limit_antitone (1/4) (1/2) (by norm_num) (by norm_num)
  refine ⟨H.1, H.2 (by norm_num) ?_ ?_⟩
  · rw [max_func]
    norm_num [clipCutoff]
  · rw [max_func]
    norm_num [clipCutoff]

/-- Modelled from the spec: the estimator `astroML.lumfunc.bootstrap_Cminus`
is imported by the script and its source is not among the shown files.
Per §4.1 step 3, the cumulative estimator built from the comparable sets is
converted into a binned density over the supplied fit grid by numerical
differencing of the cumulative step function across bin edges. -/
def binnedDensity (cum : ℚ → ℚ) (edges : List ℚ) : List ℚ :=
  List.zipWith (fun a b => (cum b - cum a) / (b - a)) edges.dropLast (edges.drop 1)

/-- The widths of the bins of a fit grid. -/
def binWidths (edges : List ℚ) : List ℚ :=
  List.zipWith (fun a b => b - a) edges.dropLast (edges.drop 1)

/-- The integral of a binned density over its fit grid: the sum over bins of
density times bin width. -/
def gridIntegral (d : List ℚ) (edges : List ℚ) : ℚ :=
  (List.zipWith (fun a b => a * b) d (binWidths edges)).sum

/-- Modelled from the spec: §4.1 step 4 — when `normalize=True` the binned
density is scaled so that its integral over the fit grid equals 1. -/
def normalizeDensity (d : List ℚ) (edges : List ℚ) : List ℚ :=
  d.map (fun v => v / gridIntegral d edges)

/-- Modelled from the spec: the per-axis marginal density returned by the
C-minus estimator, with the optional normalization of §4.1 step 4. -/
def Cminus_density (cum : ℚ → ℚ) (edges : List ℚ) (normalize : Bool) : List ℚ :=
  if normalize then normalizeDensity (binnedDensity cum edges) edges
  else binnedDensity cum edges

/-- Scaling one factor of an elementwise product by `1/c` scales the sum by `1/c`. -/
theorem sum_zipWith_div (d w : List ℚ) (c : ℚ) :
    (List.zipWith (fun a b => a / c * b) d w).sum =
      (List.zipWith (fun a b => a * b) d w).sum / c := by
  induction d generalizing w with
  | nil => simp
  | cons a d ih =>
    cases w with
    | nil => simp
    | cons b w =>
      simp only [List.zipWith_cons_cons, List.sum_cons, ih w]
      ring

/-- C3: with `normalize=True`, the marginal density returned for a fit grid
integrates to 1 over that grid, whenever the unnormalized estimate has
nonzero integral. -/
theorem normalized_density_integrates_to_one (cum : ℚ → ℚ) (edges : List ℚ)
    (h : gridIntegral (binnedDensity cum edges) edges ≠ 0) :
    gridIntegral (Cminus_density cum edges true) edges = 1 := by
  rw [Cminus_density, if_pos rfl, normalizeDensity, gridIntegral, List.zipWith_map_left,
    sum_zipWith_div]
  exact div_self h

/-- Witness for C3 with the identity cumulative on the grid `[0, 1/2, 1]`. -/
theorem normalized_density_integrates_to_one_witness :
    gridIntegral (binnedDensity (fun t => t) [0, 1/2, 1]) [0, 1/2, 1] ≠ 0 ∧
    gridIntegral (Cminus_density (fun t => t) [0, 1/2, 1] true) [0, 1/2, 1] = 1 := by
  have h : gridIntegral (binnedDensity (fun t => t) [0, 1/2, 1]) [0, 1/2, 1] ≠ 0 := by
    norm_num [gridIntegral, binnedDensity, binWidths]
  exact ⟨h, normalized_density_integrates_to_one _ _ h⟩

end LyndenBellToy
